import Mathlib

/-!
Verification of the symbol-graph construction and API-attribution engine of
the `cackle` build-time capability checker, against its natural-language
specification.  The Rust sources embedded here are:

  * `src/names.rs`        — the name parser (`split_names`, `Name.starts_with`)
  * `src/config/built_in.rs` — the built-in permission table
  * `src/symbol_graph.rs` — object index, target-symbol resolution, filetype
                            detection, vendor filtering and usage emission
  * `src/proxy/rpc.rs`    — the length-prefixed RPC message framing

Pure functions are translated directly; the object-file walk is modelled by
explicit data for symbols, sections and relocations.
-/

namespace Cackle

/-! ## Names (src/names.rs)

`Name` is an ordered sequence of path components; equality is component-wise.
-/

structure Name where
  parts : List String
  deriving DecidableEq, Repr

/-- Embeds `Name::starts_with` from src/names.rs: `self.parts.starts_with(&other.parts)`,
i.e. the argument's components are a component-wise prefix of `self`'s. -/
def Name.starts_with (self other : Name) : Bool :=
  other.parts.isPrefixOf self.parts

/-- Appends the accumulated `part` to `parts` when non-empty, mirroring
`if !part.is_empty() { parts.push(std::mem::take(&mut part)); }`. -/
def flushPart (part : String) (parts : List String) : List String :=
  if part.isEmpty then parts else parts ++ [part]

/-- Appends the accumulated `parts` to the output as a fresh `Name` when
non-empty, mirroring `if !parts.is_empty() { all_names.push(Name { .. }); }`. -/
def flushName (parts : List String) (acc : List Name) : List Name :=
  if parts.isEmpty then acc else acc ++ [⟨parts⟩]

/-- The character loop of `split_names` (src/names.rs lines 31-70).  State:
remaining characters, the current `part`, the current `parts`, the `as_active`
flag, and the accumulated output `all_names`.  The second equation is the
three-character lookahead for the literal `" as "`. -/
def splitNamesAux : List Char → String → List String → Bool → List Name → List Name
  | [], part, parts, _, acc => flushName (flushPart part parts) acc
  | ' ' :: 'a' :: 's' :: ' ' :: cs, part, parts, _, acc =>
      splitNamesAux cs "" [] true (flushName (flushPart part parts) acc)
  | ch :: cs, part, parts, asActive, acc =>
      if ch = '(' ∨ ch = ')' then
        splitNamesAux cs part parts asActive acc
      else if ch = '<' ∨ ch = '>' then
        if asActive then
          splitNamesAux cs part parts false acc
        else
          splitNamesAux cs "" [] asActive (flushName (flushPart part parts) acc)
      else if ch = ':' then
        splitNamesAux cs "" (flushPart part parts) asActive acc
      else
        splitNamesAux cs (part.push ch) parts asActive acc

/-- Embeds `split_names` from src/names.rs: splits a composite demangled symbol
string into a list of `Name`s. -/
def split_names (composite : String) : List Name :=
  splitNamesAux composite.data "" [] false []

/-! ## Permission table (src/config/built_in.rs)

`PermConfig` holds, for one API category, the `include` and `exclude` path
lists exactly as written in `get_built_ins`. -/

structure PermConfig where
  include' : List String
  exclude : List String
  deriving DecidableEq, Repr

/-- The `perm` helper of src/config/built_in.rs.  (The `include` field is
written `include'` because `include` is a Lean keyword.) -/
def perm (inc exc : List String) : PermConfig :=
  { include' := inc, exclude := exc }

/-- Embeds `get_built_ins` from src/config/built_in.rs, as an association list in
`BTreeMap` key order (the map iterates its keys sorted). -/
def get_built_ins : List (String × PermConfig) :=
  [ ("env", perm ["std::env"] []),
    ("fs",
      perm
        ["std::fs", "std::path", "std::io",
         "std::os::linux::fs",
         "std::os::unix::fs", "std::os::unix::io",
         "std::os::wasi::fs", "std::os::wasi::io",
         "std::os::windows::fs", "std::os::windows::io",
         "std::env"]
        ["std::io::stdio",
         "std::env::var", "std::env::var_os",
         "std::env::vars", "std::env::vars_os",
         "std::env::args"]),
    ("net",
      perm
        ["std::net", "std::os::unix::net", "std::os::wasi::net",
         "std::os::windows::net"]
        []),
    ("process",
      perm
        ["std::process", "std::unix::process", "std::windows::process"]
        ["std::process::abort", "std::process::exit"]),
    ("terminate", perm ["std::process::abort", "std::process::exit"] []) ]

/-- Splits a permission path string at each `::` separator. -/
def splitPath : List Char → String → List String
  | [], cur => [cur]
  | ':' :: ':' :: cs, cur => cur :: splitPath cs ""
  | c :: cs, cur => splitPath cs (cur.push c)

/-- Modelled from the spec: the configuration loader (not under src/) turns
each permission path string such as `std::os::unix::fs` into a `Name` by
splitting on `::` (§3: PermConfig holds "two sets of Name prefixes"). -/
def nameFromPath (s : String) : Name :=
  ⟨splitPath s.data ""⟩

/-- Modelled from the spec (§4.2, the match function lives in the checker,
which is not under src/): a candidate `Name` matches a `PermConfig` iff it
starts with some include prefix and starts with no exclude prefix, using
`Name.starts_with` (src/names.rs) for component-wise prefix comparison. -/
def permConfigMatches (cfg : PermConfig) (name : Name) : Bool :=
  cfg.include'.any (fun p => name.starts_with (nameFromPath p)) &&
    !cfg.exclude.any (fun p => name.starts_with (nameFromPath p))

/-- Modelled from the spec (§4.2): `apis_for_path(name)` returns every
`PermissionName` whose `PermConfig` matches `name`. -/
def apis_for_path (name : Name) : List String :=
  (get_built_ins.filter (fun e => permConfigMatches e.2 name)).map (fun e => e.1)

/-! ## Object index (src/symbol_graph.rs)

A symbol of an object file, as far as `ObjectIndex::new` and `target_symbol`
consult it: its name bytes (`none` when `name_bytes()` fails, mirroring
`unwrap_or_default`), its address, and its optional section index.  Symbol
names are modelled as `String` rather than raw bytes. -/

structure ObjSymbol where
  name : Option String
  address : Nat
  sectionIndex : Option Nat
  deriving DecidableEq, Repr

/-- Models `symbol.name_bytes().unwrap_or_default()`: the empty name when the name
cannot be read. -/
def ObjSymbol.nameOrDefault (s : ObjSymbol) : String :=
  s.name.getD ""

/-- One step of the symbol loop of `ObjectIndex::new` (src/symbol_graph.rs
lines 219-228): skip the symbol unless its address is 0, its name is
non-empty and it has a section index; otherwise store its name in the
section's slot. -/
def recordSymbol (slots : List (Option String)) (sym : ObjSymbol) : List (Option String) :=
  if sym.address ≠ 0 ∨ sym.nameOrDefault = "" then slots
  else
    match sym.sectionIndex with
    | none => slots
    | some si => slots.set si (some sym.nameOrDefault)

/-- Embeds `ObjectIndex::new` (src/symbol_graph.rs lines 216-233), with the maximal
section ordinal `maxSectionIndex` (computed in the source as the max over the
object's sections, 0 when there are none) passed explicitly: a slot per
section, filled by the symbol loop. -/
def objectIndexNew (maxSectionIndex : Nat) (symbols : List ObjSymbol) : List (Option String) :=
  symbols.foldl recordSymbol (List.replicate (maxSectionIndex + 1) none)

/-- A relocation's target: a symbol index, or some other unsupported target
kind (`object::RelocationTarget` also has section and absolute variants). -/
inductive RelocationTarget where
  | symbol (index : Nat)
  | other
  deriving DecidableEq, Repr

/-- The errors `target_symbol` can produce, in the order of its bail sites. -/
inductive TargetSymbolError where
  | unsupportedRelocation
  | invalidSymbolIndex
  | unnamedWithoutSection
  | invalidSectionIndex
  deriving DecidableEq, Repr

/-- The parts of an `ObjectIndex` that `target_symbol` consults: the object's
symbol table (for `symbol_by_index`) and the per-section defining-symbol
slots. -/
structure ObjectIndex where
  symbols : List ObjSymbol
  sectionIndexToSymbol : List (Option String)
  deriving DecidableEq, Repr

/-- Embeds `ObjectIndex::target_symbol` (src/symbol_graph.rs lines 235-250): resolve
the relocation's target symbol index; a non-empty name wins outright; an
empty-named symbol falls back to its section's defining symbol (possibly
`none`). -/
def targetSymbol (oi : ObjectIndex) (target : RelocationTarget) :
    Except TargetSymbolError (Option String) :=
  match target with
  | .other => .error .unsupportedRelocation
  | .symbol index =>
    match oi.symbols[index]? with
    | none => .error .invalidSymbolIndex
    | some sym =>
      if sym.nameOrDefault ≠ "" then .ok (some sym.nameOrDefault)
      else
        match sym.sectionIndex with
        | none => .error .unnamedWithoutSection
        | some si =>
          match oi.sectionIndexToSymbol[si]? with
          | none => .error .invalidSectionIndex
          | some slot => .ok slot

/-! ## Filetype detection (src/symbol_graph.rs lines 279-291) -/

inductive Filetype where
  | archive
  | other
  deriving DecidableEq, Repr

/-- Models `std::path::Path::extension` on `String` paths: the portion of
the file name (the part after the last `/`) after its last `.`; `none` when
there is no `.`, or when the only `.` is the leading character of the file
name (hidden files such as `.gitignore` have no extension).  Duplicate or
trailing separators are not modelled. -/
def pathExtension (path : String) : Option String :=
  let fname := ((path.data.splitOn '/').getLastD []).asString
  match fname.data.splitOn '.' with
  | [] => none
  | [_] => none
  | [[], _] => none
  | pieces => some ((pieces.getLastD []).asString)

/-- Embeds `Filetype::from_filename` (src/symbol_graph.rs lines 280-290): archives
are recognised by extension `rlib` or the literal `".a"` (which, with the
leading dot, `Path::extension` can never produce). -/
def fromFilename (filename : String) : Filetype :=
  match pathExtension filename with
  | none => Filetype.other
  | some ext => if ext = "rlib" ∨ ext = ".a" then Filetype.archive else Filetype.other

/-! ## Usage emission (src/symbol_graph.rs, `process_object_file_bytes`) -/

structure SourceLocation where
  filename : String
  deriving DecidableEq, Repr

/-- A single attributed edge (`Usage` in src/checker.rs, consumed here); the
Rust fields `from` and `to` are Lean keywords-adjacent and appear as
`fromSym`/`toSym`. -/
structure Usage where
  location : SourceLocation
  fromSym : String
  toSym : String
  deriving DecidableEq, Repr

/-- One (crate, permission) observation: `usages` models the single-entry
`BTreeMap<PermissionName, Vec<Usage>>` built at the emission site. -/
structure ApiUsage where
  crate_name : String
  usages : List (String × List Usage)
  deriving DecidableEq, Repr

/-- Models `std::path::Path` components of a `String` path: the part before the
first `/` (empty for an absolute path), then the non-empty pieces between
separators (so duplicate and trailing separators are collapsed, as Rust's
`Components` does; `.` and `..` normalisation is not modelled). -/
def pathComponents (p : String) : List String :=
  match p.data.splitOn '/' with
  | [] => []
  | first :: rest => first.asString :: (rest.filter (fun c => c ≠ [])).map List.asString

/-- Models `std::path::Path::starts_with`: component-wise path-prefix test ("only
considers whole path components to match"). -/
def pathStartsWith (p pre : String) : Bool :=
  (pathComponents pre).isPrefixOf (pathComponents p)

/-- The vendor filter of src/symbol_graph.rs lines 168-173:
`source_filename.starts_with("/rustc/") || source_filename.starts_with("/cargo/registry")`. -/
def vendorFiltered (sourceFilename : String) : Bool :=
  pathStartsWith sourceFilename "/rustc/" || pathStartsWith sourceFilename "/cargo/registry"

/-- The inner loop body of `process_object_file_bytes` (src/symbol_graph.rs
lines 178-206) for one crate and one candidate `Name` decoded from the target
symbol: skipped entirely when the name's first component equals the crate's
name (`name_parts.first().map(|s| crate_name.as_ref() == s).unwrap_or(false)`),
otherwise one `ApiUsage` per permission the name matches.  The permission
lookup `checker.apis_for_path` is passed in as `apis`. -/
def usagesForName (apis : Name → List String) (crate : String) (n : Name) (u : Usage) :
    List ApiUsage :=
  if n.parts.head? = some crate then []
  else (apis n).map (fun p => { crate_name := crate, usages := [(p, [u])] })

/-- The per-crate loop of `process_object_file_bytes`: each candidate name
decoded from the target symbol contributes in order. -/
def usagesForCrate (apis : Name → List String) (crate : String) (names : List Name)
    (u : Usage) : List ApiUsage :=
  names.flatMap (fun n => usagesForName apis crate n u)

/-- The per-relocation emission of `process_object_file_bytes` (lines
154-208) after the target symbol and source file name have been resolved: the
vendor filter drops the edge outright; otherwise every crate owning the
source file contributes its usages.  The emitted `Usage` carries the resolved
source location and the section-start/target symbols. -/
def relocationUsages (apis : Name → List String) (crates : List String)
    (names : List Name) (sourceFilename : String) (fromSym toSym : String) :
    List ApiUsage :=
  if vendorFiltered sourceFilename then []
  else
    crates.flatMap (fun c =>
      usagesForCrate apis c names ⟨⟨sourceFilename⟩, fromSym, toSym⟩)

/-! ## RPC message framing (src/proxy/rpc.rs)

The `Request` enum, with the payload types that live outside src/ modelled
from the spec (§4.8): `LinkInfo` and `SandboxConfig` are opaque to the core
and modelled as tagged strings; `errors::UnsafeUsage` carries a file name and
a start line. -/

/-- Modelled from the spec: `errors::UnsafeUsage` (src/proxy/errors.rs is not
under src/) — the file and line of a disallowed `unsafe` usage. -/
structure UnsafeUsageError where
  file_name : String
  start_line : Nat
  deriving DecidableEq, Repr

/-- Structure `UnsafeUsage` from src/proxy/rpc.rs. -/
structure UnsafeUsage where
  crate_name : String
  error_info : UnsafeUsageError
  deriving DecidableEq, Repr

/-- Modelled from the spec: `LinkInfo` (src/link_info.rs is not under src/)
is opaque to the core. -/
structure LinkInfo where
  data : String
  deriving DecidableEq, Repr

/-- Modelled from the spec: `SandboxConfig` (src/config.rs is not under
src/) is opaque here. -/
structure SandboxConfig where
  data : String
  deriving DecidableEq, Repr

/-- Structure `BuildScriptOutput` from src/proxy/rpc.rs. -/
structure BuildScriptOutput where
  exit_code : Int
  stdout : List Nat
  stderr : List Nat
  package_name : String
  sandbox_config : SandboxConfig
  build_script : String
  deriving DecidableEq, Repr

/-- Structure `RustcOutput` from src/proxy/rpc.rs. -/
structure RustcOutput where
  crate_name : String
  source_paths : List String
  deriving DecidableEq, Repr

/-- The `Request` enum from src/proxy/rpc.rs. -/
inductive Request where
  | crateUsesUnsafe (u : UnsafeUsage)
  | linkerInvoked (info : LinkInfo)
  | buildScriptComplete (info : BuildScriptOutput)
  | rustcStarted (crate_name : String)
  | rustcComplete (info : RustcOutput)
  deriving DecidableEq, Repr

/-- Errors of `read_from_stream`: a short read, invalid UTF-8, or a JSON
decode failure (the latter two are collapsed into the abstract decoder's
error). -/
inductive RpcError where
  | eof
  | decode
  deriving DecidableEq, Repr

/-- Models `usize::to_le_bytes` generalised: the `k` little-endian base-256 digits
of `n`. -/
def leBytes : Nat → Nat → List Nat
  | 0, _ => []
  | k + 1, n => n % 256 :: leBytes k (n / 256)

/-- Models `usize::from_le_bytes`: the value of a little-endian digit list. -/
def leVal : List Nat → Nat
  | [] => 0
  | b :: bs => b + 256 * leVal bs

/-- Embeds `write_to_stream` (src/proxy/rpc.rs lines 116-121) into a byte buffer:
the JSON serialisation's length as a little-endian 8-byte machine word,
followed by the serialised bytes.  Serialisation itself (serde_json on the
derived `Serialize`, not part of this repository's sources) is passed in as
`toJsonBytes`. -/
def write_to_stream (toJsonBytes : Request → List Nat) (value : Request) : List Nat :=
  let serialized := toJsonBytes value
  leBytes 8 serialized.length ++ serialized

/-- Embeds `read_from_stream` (src/proxy/rpc.rs lines 124-132) from a byte buffer:
read an 8-byte little-endian length, then that many payload bytes, then
decode them (UTF-8 validation plus `serde_json::from_str`, abstracted as
`fromJsonBytes`). -/
def read_from_stream (fromJsonBytes : List Nat → Except RpcError Request)
    (stream : List Nat) : Except RpcError Request :=
  if stream.length < 8 then .error .eof
  else
    let len := leVal (stream.take 8)
    let rest := stream.drop 8
    if rest.length < len then .error .eof
    else fromJsonBytes (rest.take len)

/-! ## Derived notions used by the statements -/

/-- The characters of a component list, in order. -/
def partsChars (ps : List String) : List Char :=
  ps.flatMap String.data

/-- The characters of a `Name`'s components, in order. -/
def nameChars (n : Name) : List Char :=
  partsChars n.parts

/-- The characters of all emitted `Name`s, in order. -/
def allNamesChars (ns : List Name) : List Char :=
  ns.flatMap nameChars

/-- Models `Vec<String>::join("::")` as used by `Name`'s `Display` impl
(src/names.rs line 84). -/
def joinColons : List String → String
  | [] => ""
  | [p] => p
  | p :: ps => p ++ "::" ++ joinColons ps

/-- A symbol qualifies as the defining symbol of section `si`: address 0,
non-empty name, and section index `si` (the skip conditions of
`ObjectIndex::new`). -/
def definesSection (s : ObjSymbol) (si : Nat) : Bool :=
  s.address == 0 && s.nameOrDefault != "" && s.sectionIndex == some si

/-- The characters a component of a `split_names` output may not contain. -/
def goodChar (c : Char) : Prop :=
  c ≠ ':' ∧ c ≠ '<' ∧ c ≠ '>' ∧ c ≠ '(' ∧ c ≠ ')'

instance (c : Char) : Decidable (goodChar c) := by
  unfold goodChar; infer_instance

/-- The invariant of `split_names` output names: a non-empty component list
of non-empty components free of the parser's structural characters. -/
def goodName (n : Name) : Prop :=
  n.parts ≠ [] ∧ ∀ p ∈ n.parts, p ≠ "" ∧ ∀ c ∈ p.data, goodChar c

/-! ## Theorems -/

/-- Claim C1: permission matching against the built-in table is component-wise
prefix matching with exclude overriding include: `std::env::var` does not
match the built-in `fs` API while `std::env::current_dir` does;
`std::process::exit` does not match `process` but does match `terminate`; in
general a `Name` matches a `PermConfig` iff some include prefix is a
component-wise prefix of it and no exclude prefix is; and `std::env` is not a
prefix of `std::environment`. -/
theorem C1_permission_matching :
    "fs" ∉ apis_for_path ⟨["std", "env", "var"]⟩ ∧
    "fs" ∈ apis_for_path ⟨["std", "env", "current_dir"]⟩ ∧
    "process" ∉ apis_for_path ⟨["std", "process", "exit"]⟩ ∧
    "terminate" ∈ apis_for_path ⟨["std", "process", "exit"]⟩ ∧
    (∀ (cfg : PermConfig) (n : Name),
      permConfigMatches cfg n = true ↔
        ((∃ p ∈ cfg.include', (nameFromPath p).parts <+: n.parts) ∧
         ∀ p ∈ cfg.exclude, ¬ (nameFromPath p).parts <+: n.parts)) ∧
    Name.starts_with ⟨["std", "environment"]⟩ ⟨["std", "env"]⟩ = false := by
  refine ⟨by decide, by decide, by decide, by decide, ?_, by decide⟩
  intro cfg n
  simp [permConfigMatches, Name.starts_with, List.any_eq_true,
    List.isPrefixOf_iff_prefix]

/-- Claim C2: `split_names` on the four example composites of the spec yields
exactly the stated lists of names. -/
theorem C2_split_names_examples :
    split_names "foo::bar<baz::qux<()>::\x7b\x7bclosure\x7d\x7d>" =
      [⟨["foo", "bar"]⟩, ⟨["baz", "qux"]⟩, ⟨["\x7b\x7bclosure\x7d\x7d"]⟩] ∧
    split_names "<A::B as C::D>::m" = [⟨["A", "B"]⟩, ⟨["C", "D", "m"]⟩] ∧
    split_names "core::ptr::drop_in_place<std::rt::lang_start<()>::\x7b\x7bclosure\x7d\x7d>" =
      [⟨["core", "ptr", "drop_in_place"]⟩, ⟨["std", "rt", "lang_start"]⟩,
       ⟨["\x7b\x7bclosure\x7d\x7d"]⟩] ∧
    split_names "<alloc::string::String as core::fmt::Debug>::fmt" =
      [⟨["alloc", "string", "String"]⟩, ⟨["core", "fmt", "Debug", "fmt"]⟩] := by
  exact ⟨by decide, by decide, by decide, by decide⟩

lemma data_empty' : ("" : String).data = [] := rfl

lemma partsChars_flushPart (part : String) (parts : List String) :
    partsChars (flushPart part parts) = partsChars parts ++ part.data := by
  unfold flushPart
  split
  · next h =>
    have hp : part = "" := (String.isEmpty_iff part).mp h
    subst hp
    simp [partsChars, data_empty']
  · simp [partsChars]

lemma allNamesChars_flushName (ps : List String) (acc : List Name) :
    allNamesChars (flushName ps acc) = allNamesChars acc ++ partsChars ps := by
  unfold flushName
  split
  · next h => simp [allNamesChars, partsChars, List.isEmpty_iff.mp h]
  · simp [allNamesChars, nameChars]

lemma sublist_cons₄ {α : Type} (a b c d : α) (l : List α) :
    l.Sublist (a :: b :: c :: d :: l) :=
  (List.sublist_cons_self d l).trans ((List.sublist_cons_self c _).trans
    ((List.sublist_cons_self b _).trans (List.sublist_cons_self a _)))

lemma sublist_append₃ {α : Type} {A B C l l' : List α} (h : l.Sublist l') :
    (A ++ (B ++ (C ++ l))).Sublist (A ++ (B ++ (C ++ l'))) :=
  ((h.append_left C).append_left B).append_left A

lemma partsChars_nil : partsChars [] = [] := rfl

/-- Every character the parser keeps comes from the input, in order: the
characters of the final output extend those of the current state only by a
subsequence of the remaining input. -/
lemma splitNamesAux_chars_sublist (cs : List Char) (part : String)
    (parts : List String) (b : Bool) (acc : List Name) :
    (allNamesChars (splitNamesAux cs part parts b acc)).Sublist
      (allNamesChars acc ++ partsChars parts ++ part.data ++ cs) := by
  induction cs, part, parts, b, acc using splitNamesAux.induct with
  | case1 part parts b acc =>
      simp only [splitNamesAux.eq_1, allNamesChars_flushName, partsChars_flushPart,
        List.append_nil, List.append_assoc]
      exact List.Sublist.refl _
  | case2 cs part parts b acc ih =>
      rw [splitNamesAux.eq_2]
      refine ih.trans ?_
      simp only [allNamesChars_flushName, partsChars_flushPart, partsChars_nil,
        data_empty', List.append_nil, List.append_assoc]
      exact sublist_append₃ (sublist_cons₄ _ _ _ _ _)
  | case3 ch cs part parts b acc hne h ih =>
      rw [splitNamesAux.eq_3 _ _ _ _ _ _ hne, if_pos h]
      refine ih.trans ?_
      simp only [List.append_assoc]
      exact sublist_append₃ (List.sublist_cons_self _ _)
  | case4 ch cs part parts acc hne h1 h2 ih =>
      rw [splitNamesAux.eq_3 _ _ _ _ _ _ hne, if_neg h1, if_pos h2, if_pos rfl]
      refine ih.trans ?_
      simp only [List.append_assoc]
      exact sublist_append₃ (List.sublist_cons_self _ _)
  | case5 ch cs part parts asActive acc hne h1 h2 h3 ih =>
      rw [splitNamesAux.eq_3 _ _ _ _ _ _ hne, if_neg h1, if_pos h2, if_neg h3]
      refine ih.trans ?_
      simp only [allNamesChars_flushName, partsChars_flushPart, partsChars_nil,
        data_empty', List.append_nil, List.append_assoc]
      exact sublist_append₃ (List.sublist_cons_self _ _)
  | case6 cs part parts asActive acc hne h1 h2 ih =>
      rw [splitNamesAux.eq_3 _ _ _ _ _ _ hne, if_neg h1, if_neg h2, if_pos rfl]
      refine ih.trans ?_
      simp only [partsChars_flushPart, data_empty', List.append_nil, List.append_assoc]
      exact sublist_append₃ (List.sublist_cons_self _ _)
  | case7 ch cs part parts asActive acc hne h1 h2 h3 ih =>
      rw [splitNamesAux.eq_3 _ _ _ _ _ _ hne, if_neg h1, if_neg h2, if_neg h3]
      refine ih.trans ?_
      simp only [String.data_push, List.append_assoc, List.singleton_append]
      exact List.Sublist.refl _

lemma flushPart_good {part : String} {parts : List String}
    (hpart : ∀ c ∈ part.data, goodChar c)
    (hparts : ∀ p ∈ parts, p ≠ "" ∧ ∀ c ∈ p.data, goodChar c) :
    ∀ p ∈ flushPart part parts, p ≠ "" ∧ ∀ c ∈ p.data, goodChar c := by
  unfold flushPart
  split
  · exact hparts
  · next h =>
    intro p hp
    rcases List.mem_append.mp hp with h1 | h1
    · exact hparts p h1
    · rcases List.mem_singleton.mp h1 with rfl
      exact ⟨fun hc => h ((String.isEmpty_iff _).mpr hc), hpart⟩

lemma flushName_good {ps : List String} {acc : List Name}
    (hps : ∀ p ∈ ps, p ≠ "" ∧ ∀ c ∈ p.data, goodChar c)
    (hacc : ∀ n ∈ acc, goodName n) :
    ∀ n ∈ flushName ps acc, goodName n := by
  unfold flushName
  split
  · exact hacc
  · next h =>
    intro n hn
    rcases List.mem_append.mp hn with h1 | h1
    · exact hacc n h1
    · rcases List.mem_singleton.mp h1 with rfl
      exact ⟨fun hnil => h (List.isEmpty_iff.mpr hnil), hps⟩

lemma nil_forall_good : ∀ c ∈ ("" : String).data, goodChar c := by
  rw [data_empty']; intro c hc; cases hc

lemma nil_parts_good : ∀ p ∈ ([] : List String), p ≠ "" ∧ ∀ c ∈ p.data, goodChar c := by
  intro p hp; cases hp

/-- The state invariant of the parser loop: if the in-progress part and parts
contain only good characters and the accumulator only good names, the output
contains only good names. -/
lemma splitNamesAux_good :
    ∀ (cs : List Char) (part : String) (parts : List String) (b : Bool) (acc : List Name),
    (∀ c ∈ part.data, goodChar c) →
    (∀ p ∈ parts, p ≠ "" ∧ ∀ c ∈ p.data, goodChar c) →
    (∀ n ∈ acc, goodName n) →
    ∀ n ∈ splitNamesAux cs part parts b acc, goodName n := by
  intro cs part parts b acc
  induction cs, part, parts, b, acc using splitNamesAux.induct with
  | case1 part parts b acc =>
      intro h1 h2 h3
      rw [splitNamesAux.eq_1]
      exact flushName_good (flushPart_good h1 h2) h3
  | case2 cs part parts b acc ih =>
      intro h1 h2 h3
      rw [splitNamesAux.eq_2]
      exact ih nil_forall_good nil_parts_good (flushName_good (flushPart_good h1 h2) h3)
  | case3 ch cs part parts b acc hne h ih =>
      intro h1 h2 h3
      rw [splitNamesAux.eq_3 _ _ _ _ _ _ hne, if_pos h]
      exact ih h1 h2 h3
  | case4 ch cs part parts acc hne hn1 h2 ih =>
      intro h1 hp2 hp3
      rw [splitNamesAux.eq_3 _ _ _ _ _ _ hne, if_neg hn1, if_pos h2, if_pos rfl]
      exact ih h1 hp2 hp3
  | case5 ch cs part parts asActive acc hne hn1 h2 h3 ih =>
      intro hp1 hp2 hp3
      rw [splitNamesAux.eq_3 _ _ _ _ _ _ hne, if_neg hn1, if_pos h2, if_neg h3]
      exact ih nil_forall_good nil_parts_good (flushName_good (flushPart_good hp1 hp2) hp3)
  | case6 cs part parts asActive acc hne hn1 hn2 ih =>
      intro hp1 hp2 hp3
      rw [splitNamesAux.eq_3 _ _ _ _ _ _ hne, if_neg hn1, if_neg hn2, if_pos rfl]
      exact ih nil_forall_good (flushPart_good hp1 hp2) hp3
  | case7 ch cs part parts asActive acc hne hn1 hn2 hn3 ih =>
      intro hp1 hp2 hp3
      rw [splitNamesAux.eq_3 _ _ _ _ _ _ hne, if_neg hn1, if_neg hn2, if_neg hn3]
      refine ih ?_ hp2 hp3
      intro c hc
      rw [String.data_push] at hc
      rcases List.mem_append.mp hc with h | h
      · exact hp1 c h
      · rcases List.mem_singleton.mp h with rfl
        exact ⟨hn3, (not_or.mp hn2).1, (not_or.mp hn2).2, (not_or.mp hn1).1,
          (not_or.mp hn1).2⟩

/-- Claim C3, counterexample: the claim "joining an emitted Name's components
with `::` yields a substring of the input" fails on the spec's own example
`<A::B as C::D>::m`, whose second emitted name joins to `C::D::m`, not a
contiguous substring of the input; and on `a:b` the join `a::b` is not even a
subsequence of the input (a single `:` flushes a component). -/
theorem C3_counterexample :
    (∃ n ∈ split_names "<A::B as C::D>::m",
       ¬ (joinColons n.parts).data <:+: ("<A::B as C::D>::m" : String).data) ∧
    (∃ n ∈ split_names "a:b",
       ¬ (joinColons n.parts).data.Sublist ("a:b" : String).data) := by
  constructor
  · exact ⟨⟨["C", "D", "m"]⟩, by decide, by decide⟩
  · exact ⟨⟨["a", "b"]⟩, by decide, by decide⟩

/-- Claim C3, amended: for every input string and every Name that `split_names`
emits for it, the concatenation of the Name's components' characters, in
order and without separators, is a subsequence of the input string's
characters.  (The claimed substring property with `::` separators fails: `<`,
`>`, `(`, `)` and the literal `" as "` are consumed without being copied, and
a single `:` flushes a component just as `::` does.) -/
theorem C3_amended_subsequence (s : String) :
    ∀ n ∈ split_names s, (nameChars n).Sublist s.data := by
  intro n hn
  have h1 : (nameChars n).Sublist (allNamesChars (split_names s)) := by
    rw [allNamesChars, List.flatMap_def]
    exact List.sublist_flatten_of_mem (List.mem_map_of_mem _ hn)
  have h2 := splitNamesAux_chars_sublist s.data "" [] false []
  exact h1.trans h2

theorem C3_amended_witness :
    (⟨["foo", "bar"]⟩ : Name) ∈ split_names "foo::bar" ∧
      (nameChars ⟨["foo", "bar"]⟩).Sublist ("foo::bar" : String).data :=
  ⟨by decide, C3_amended_subsequence "foo::bar" ⟨["foo", "bar"]⟩ (by decide)⟩

/-- Claim C10: every Name returned by `split_names` has a non-empty component
list, and every component is a non-empty string containing none of the
characters `:`, `<`, `>`, `(`, `)`. -/
theorem C10_output_invariant (s : String) :
    ∀ n ∈ split_names s, n.parts ≠ [] ∧
      ∀ p ∈ n.parts, p ≠ "" ∧ ∀ c ∈ p.data,
        c ≠ ':' ∧ c ≠ '<' ∧ c ≠ '>' ∧ c ≠ '(' ∧ c ≠ ')' := by
  intro n hn
  have h := splitNamesAux_good s.data "" [] false [] nil_forall_good nil_parts_good
    (by intro m hm; cases hm) n hn
  exact ⟨h.1, fun p hp => ⟨(h.2 p hp).1, fun c hc => (h.2 p hp).2 c hc⟩⟩

theorem C10_witness :
    (⟨["foo", "bar"]⟩ : Name) ∈ split_names "foo::bar" ∧
      ((⟨["foo", "bar"]⟩ : Name).parts ≠ [] ∧
        ∀ p ∈ (⟨["foo", "bar"]⟩ : Name).parts, p ≠ "" ∧ ∀ c ∈ p.data,
          c ≠ ':' ∧ c ≠ '<' ∧ c ≠ '>' ∧ c ≠ '(' ∧ c ≠ ')') :=
  ⟨by decide, C10_output_invariant "foo::bar" ⟨["foo", "bar"]⟩ (by decide)⟩

lemma recordSymbol_length (slots : List (Option String)) (s : ObjSymbol) :
    (recordSymbol slots s).length = slots.length := by
  unfold recordSymbol
  split
  · rfl
  · cases s.sectionIndex <;> simp

lemma definesSection_iff {s : ObjSymbol} {si : Nat} :
    definesSection s si = true ↔
      s.address = 0 ∧ s.nameOrDefault ≠ "" ∧ s.sectionIndex = some si := by
  simp [definesSection, Bool.and_eq_true, and_assoc]

/-- The slot a fold of `recordSymbol` leaves at an in-range index `si` is the
name of the last symbol of the list that qualifies as `si`'s defining symbol,
or the initial slot value when none does. -/
lemma foldl_recordSymbol (symbols : List ObjSymbol) (slots : List (Option String))
    (si : Nat) (h : si < slots.length) :
    (symbols.foldl recordSymbol slots)[si]? =
      match symbols.reverse.find? (fun s => definesSection s si) with
      | some s => some (some s.nameOrDefault)
      | none => slots[si]? := by
  induction symbols generalizing slots with
  | nil => simp
  | cons s rest ih =>
    have hlen : si < (recordSymbol slots s).length := by
      rw [recordSymbol_length]; exact h
    rw [List.foldl_cons, List.reverse_cons, List.find?_append, ih _ hlen]
    cases hfind : rest.reverse.find? (fun t => definesSection t si) with
    | some x => simp
    | none =>
      simp only [Option.none_or]
      by_cases hd : definesSection s si
      · rcases definesSection_iff.mp hd with ⟨h1, h2, h3⟩
        simp only [List.find?_cons, List.find?_nil, hd]
        unfold recordSymbol
        rw [if_neg (by push_neg; exact ⟨h1, h2⟩), h3]
        exact List.getElem?_set_self h
      · have hdf : definesSection s si = false := by simpa using hd
        simp only [List.find?_cons, List.find?_nil, hdf]
        unfold recordSymbol
        split
        · rfl
        · next hcond =>
          cases hsec : s.sectionIndex with
          | none => rfl
          | some j =>
            rcases eq_or_ne j si with rfl | hne
            · exact absurd (definesSection_iff.mpr
                ⟨by omega, (not_or.mp hcond).2, hsec⟩) hd
            · exact List.getElem?_set_ne hne

/-- Claim C4, counterexample: with two zero-address named symbols sharing
section 0, the first one encountered does *not* win: the later symbol `b`
overwrites the earlier `a` (`first_symbol_by_section[i] = Some(..)` is an
unconditional assignment). -/
theorem C4_counterexample :
    objectIndexNew 0 [⟨some "a", 0, some 0⟩, ⟨some "b", 0, some 0⟩] = [some "b"] ∧
      (objectIndexNew 0 [⟨some "a", 0, some 0⟩, ⟨some "b", 0, some 0⟩])[0]? ≠
        some (some "a") :=
  ⟨by decide, by decide⟩

/-- Claim C4, amended: when building an `ObjectIndex`, each section slot holds
exactly the *last* symbol encountered whose address is 0, whose name is
non-empty and whose section index is that section (the later recording
overwrites an earlier one), and is empty when no such symbol exists. -/
theorem C4_amended_last_wins (maxSectionIndex : Nat) (symbols : List ObjSymbol)
    (si : Nat) (hsi : si < maxSectionIndex + 1) :
    (objectIndexNew maxSectionIndex symbols)[si]? =
      some ((symbols.reverse.find? (fun s => definesSection s si)).map
        ObjSymbol.nameOrDefault) := by
  have hlen : si < (List.replicate (maxSectionIndex + 1) (none : Option String)).length := by
    simpa using hsi
  rw [objectIndexNew, foldl_recordSymbol _ _ _ hlen]
  cases hfind : symbols.reverse.find? (fun s => definesSection s si) with
  | some x => simp
  | none => simp [List.getElem?_replicate, hsi]

theorem C4_witness :
    0 < 1 + 1 ∧
      (objectIndexNew 1 [⟨some "a", 0, some 0⟩, ⟨some "b", 0, some 0⟩])[0]? =
        some ((([⟨some "a", 0, some 0⟩, ⟨some "b", 0, some 0⟩] :
          List ObjSymbol).reverse.find? (fun s => definesSection s 0)).map
            ObjSymbol.nameOrDefault) :=
  ⟨by decide, C4_amended_last_wins 1 [⟨some "a", 0, some 0⟩, ⟨some "b", 0, some 0⟩] 0
    (by decide)⟩

/-- Claim C5 (code defect): `Filetype::from_filename` recognises an archive
only for extension `rlib`.  A `.a` archive such as `libfoo.a` has
`Path::extension` equal to `a`, but the code compares the extension against
the literal `".a"` — a value `Path::extension` can never produce, since an
extension never contains the leading dot — so `.a` files are read as single
object files, against the spec's stated intent that both `rlib` and `a` mark
archives. -/
theorem C5_filetype_archive_detection :
    pathExtension "libfoo.a" = some "a" ∧
    fromFilename "libfoo.a" = Filetype.other ∧
    fromFilename "libbar.rlib" = Filetype.archive ∧
    fromFilename "crate.o" = Filetype.other ∧
    ∀ p : String, fromFilename p = Filetype.archive →
      pathExtension p = some "rlib" ∨ pathExtension p = some ".a" := by
  refine ⟨by decide, by decide, by decide, by decide, ?_⟩
  intro p hp
  unfold fromFilename at hp
  cases hext : pathExtension p with
  | none => rw [hext] at hp; exact absurd hp (by decide)
  | some ext =>
    rw [hext] at hp
    dsimp only at hp
    by_cases h : ext = "rlib" ∨ ext = ".a"
    · rcases h with rfl | rfl
      · exact Or.inl rfl
      · exact Or.inr rfl
    · rw [if_neg h] at hp
      exact absurd hp (by decide)

/-- Claim C6: `target_symbol` returns the relocation's target symbol when its
name is non-empty, otherwise the target symbol's section's defining symbol
(possibly absent); it errs with `UnsupportedRelocation` when the target is
not a symbol reference, `InvalidSymbolIndex` when the symbol index does not
resolve, `UnnamedWithoutSection` when an empty-named target has no section
index, and `InvalidSectionIndex` when the section ordinal is out of range. -/
theorem C6_target_symbol_cases :
    (∀ oi : ObjectIndex,
      targetSymbol oi .other = .error .unsupportedRelocation) ∧
    (∀ (oi : ObjectIndex) (idx : Nat), oi.symbols[idx]? = none →
      targetSymbol oi (.symbol idx) = .error .invalidSymbolIndex) ∧
    (∀ (oi : ObjectIndex) (idx : Nat) (sym : ObjSymbol),
      oi.symbols[idx]? = some sym → sym.nameOrDefault ≠ "" →
      targetSymbol oi (.symbol idx) = .ok (some sym.nameOrDefault)) ∧
    (∀ (oi : ObjectIndex) (idx : Nat) (sym : ObjSymbol),
      oi.symbols[idx]? = some sym → sym.nameOrDefault = "" →
      sym.sectionIndex = none →
      targetSymbol oi (.symbol idx) = .error .unnamedWithoutSection) ∧
    (∀ (oi : ObjectIndex) (idx si : Nat) (sym : ObjSymbol),
      oi.symbols[idx]? = some sym → sym.nameOrDefault = "" →
      sym.sectionIndex = some si → oi.sectionIndexToSymbol.length ≤ si →
      targetSymbol oi (.symbol idx) = .error .invalidSectionIndex) ∧
    (∀ (oi : ObjectIndex) (idx si : Nat) (sym : ObjSymbol) (slot : Option String),
      oi.symbols[idx]? = some sym → sym.nameOrDefault = "" →
      sym.sectionIndex = some si → oi.sectionIndexToSymbol[si]? = some slot →
      targetSymbol oi (.symbol idx) = .ok slot) := by
  refine ⟨fun oi => rfl, ?_, ?_, ?_, ?_, ?_⟩
  · intro oi idx h
    simp only [targetSymbol, h]
  · intro oi idx sym h hname
    simp only [targetSymbol, h, if_pos hname]
  · intro oi idx sym h hname hsec
    simp only [targetSymbol, h, if_neg (show ¬sym.nameOrDefault ≠ "" from by
      simp [hname]), hsec]
  · intro oi idx si sym h hname hsec hrange
    simp only [targetSymbol, h, if_neg (show ¬sym.nameOrDefault ≠ "" from by
      simp [hname]), hsec, List.getElem?_eq_none hrange]
  · intro oi idx si sym slot h hname hsec hslot
    simp only [targetSymbol, h, if_neg (show ¬sym.nameOrDefault ≠ "" from by
      simp [hname]), hsec, hslot]

theorem C6_witness :
    targetSymbol ⟨[⟨some "t", 0, some 0⟩, ⟨none, 0, some 0⟩, ⟨none, 0, none⟩,
        ⟨none, 0, some 5⟩], [some "d"]⟩ .other = .error .unsupportedRelocation ∧
    targetSymbol ⟨[⟨some "t", 0, some 0⟩, ⟨none, 0, some 0⟩, ⟨none, 0, none⟩,
        ⟨none, 0, some 5⟩], [some "d"]⟩ (.symbol 9) = .error .invalidSymbolIndex ∧
    targetSymbol ⟨[⟨some "t", 0, some 0⟩, ⟨none, 0, some 0⟩, ⟨none, 0, none⟩,
        ⟨none, 0, some 5⟩], [some "d"]⟩ (.symbol 0) = .ok (some "t") ∧
    targetSymbol ⟨[⟨some "t", 0, some 0⟩, ⟨none, 0, some 0⟩, ⟨none, 0, none⟩,
        ⟨none, 0, some 5⟩], [some "d"]⟩ (.symbol 2) = .error .unnamedWithoutSection ∧
    targetSymbol ⟨[⟨some "t", 0, some 0⟩, ⟨none, 0, some 0⟩, ⟨none, 0, none⟩,
        ⟨none, 0, some 5⟩], [some "d"]⟩ (.symbol 3) = .error .invalidSectionIndex ∧
    targetSymbol ⟨[⟨some "t", 0, some 0⟩, ⟨none, 0, some 0⟩, ⟨none, 0, none⟩,
        ⟨none, 0, some 5⟩], [some "d"]⟩ (.symbol 1) = .ok (some "d") :=
  ⟨C6_target_symbol_cases.1 _,
   C6_target_symbol_cases.2.1 _ 9 (by decide),
   C6_target_symbol_cases.2.2.1 _ 0 ⟨some "t", 0, some 0⟩ (by decide) (by decide),
   C6_target_symbol_cases.2.2.2.1 _ 2 ⟨none, 0, none⟩ (by decide) (by decide)
     (by decide),
   C6_target_symbol_cases.2.2.2.2.1 _ 3 5 ⟨none, 0, some 5⟩ (by decide) (by decide)
     (by decide) (by decide),
   C6_target_symbol_cases.2.2.2.2.2 _ 1 0 ⟨none, 0, some 0⟩ (some "d") (by decide)
     (by decide) (by decide) (by decide)⟩

/-- Claim C7: no intra-package usages: a candidate name whose first component
equals the crate's name contributes no `ApiUsage` record, so the per-crate
emission is unchanged by first filtering those names out. -/
theorem C7_no_intra_crate_usages (apis : Name → List String) (crate : String)
    (names : List Name) (u : Usage) :
    (∀ n : Name, n.parts.head? = some crate → usagesForName apis crate n u = []) ∧
    usagesForCrate apis crate names u =
      usagesForCrate apis crate
        (names.filter (fun n => n.parts.head? != some crate)) u := by
  constructor
  · intro n hn
    simp [usagesForName, hn]
  · induction names with
    | nil => rfl
    | cons n rest ih =>
      unfold usagesForCrate at ih ⊢
      by_cases h : n.parts.head? = some crate
      · have hb : (n.parts.head? != some crate) = false := by simpa using h
        rw [List.filter_cons, hb, if_neg (by decide), List.flatMap_cons, ih,
          show usagesForName apis crate n u = [] from by simp [usagesForName, h],
          List.nil_append]
      · have hb : (n.parts.head? != some crate) = true := by simpa using h
        rw [List.filter_cons, hb, if_pos (by decide), List.flatMap_cons,
          List.flatMap_cons, ih]

theorem C7_witness :
    usagesForName (fun _ => ["net"]) "alpha" ⟨["alpha", "connect"]⟩
      ⟨⟨"/home/x/main.rs"⟩, "f", "t"⟩ = [] :=
  (C7_no_intra_crate_usages (fun _ => ["net"]) "alpha" [] ⟨⟨"/home/x/main.rs"⟩,
    "f", "t"⟩).1 ⟨["alpha", "connect"]⟩ rfl

/-- Claim C8: every `Usage` in the emitted `ApiUsage` records carries the
resolved source location, which the vendor filter has already checked: its
path starts with neither `/rustc/` nor `/cargo/registry` (component-wise
`Path::starts_with`). -/
theorem C8_vendor_filter (apis : Name → List String) (crates : List String)
    (names : List Name) (src fromS toS : String) :
    ∀ au ∈ relocationUsages apis crates names src fromS toS,
      ∀ pu ∈ au.usages, ∀ u ∈ pu.2,
        pathStartsWith u.location.filename "/rustc/" = false ∧
        pathStartsWith u.location.filename "/cargo/registry" = false := by
  intro au hau pu hpu u hu
  rw [relocationUsages] at hau
  by_cases hv : vendorFiltered src = true
  · rw [if_pos hv] at hau
    cases hau
  · rw [if_neg hv] at hau
    have hsrc : pathStartsWith src "/rustc/" = false ∧
        pathStartsWith src "/cargo/registry" = false := by
      have : vendorFiltered src = false := by simpa using hv
      exact Bool.or_eq_false_iff.mp (by simpa [vendorFiltered] using this)
    rcases List.mem_flatMap.mp hau with ⟨c, _, hau2⟩
    rcases List.mem_flatMap.mp hau2 with ⟨n, _, hau3⟩
    rw [usagesForName] at hau3
    split at hau3
    · cases hau3
    · rcases List.mem_map.mp hau3 with ⟨p, _, rfl⟩
      rcases List.mem_singleton.mp hpu with rfl
      rcases List.mem_singleton.mp hu with rfl
      exact hsrc

theorem C8_witness :
    (⟨"alpha", [("net", [⟨⟨"/home/x/main.rs"⟩, "f", "t"⟩])]⟩ : ApiUsage) ∈
      relocationUsages (fun _ => ["net"]) ["alpha"] [⟨["beta", "net", "connect"]⟩]
        "/home/x/main.rs" "f" "t" ∧
    ("net", [(⟨⟨"/home/x/main.rs"⟩, "f", "t"⟩ : Usage)]) ∈
      (⟨"alpha", [("net", [⟨⟨"/home/x/main.rs"⟩, "f", "t"⟩])]⟩ : ApiUsage).usages ∧
    (⟨⟨"/home/x/main.rs"⟩, "f", "t"⟩ : Usage) ∈
      [(⟨⟨"/home/x/main.rs"⟩, "f", "t"⟩ : Usage)] ∧
    pathStartsWith "/home/x/main.rs" "/rustc/" = false ∧
    pathStartsWith "/home/x/main.rs" "/cargo/registry" = false := by
  refine ⟨by decide, by decide, by decide, ?_⟩
  exact C8_vendor_filter (fun _ => ["net"]) ["alpha"] [⟨["beta", "net", "connect"]⟩]
    "/home/x/main.rs" "f" "t"
    ⟨"alpha", [("net", [⟨⟨"/home/x/main.rs"⟩, "f", "t"⟩])]⟩ (by decide)
    ("net", [⟨⟨"/home/x/main.rs"⟩, "f", "t"⟩]) (by decide)
    ⟨⟨"/home/x/main.rs"⟩, "f", "t"⟩ (by decide)

lemma length_leBytes (k n : Nat) : (leBytes k n).length = k := by
  induction k generalizing n with
  | zero => rfl
  | succ k ih => simp [leBytes, ih]

lemma leVal_leBytes (k n : Nat) : leVal (leBytes k n) = n % 256 ^ k := by
  induction k generalizing n with
  | zero => simp [leBytes, leVal, Nat.mod_one]
  | succ k ih =>
    rw [leBytes, leVal, ih, show (256 : Nat) ^ (k + 1) = 256 * 256 ^ k from by ring,
      Nat.mod_mul]

/-- Claim C9: writing a `Request` with `write_to_stream` — a little-endian
machine-word length followed by that many bytes of JSON — and reading the
buffer back with `read_from_stream` returns the same value, given that the
JSON codec itself round-trips (serde_json on the derived instances, outside
this repository's sources) and the serialised form fits in a usize. -/
theorem C9_rpc_roundtrip (toJsonBytes : Request → List Nat)
    (fromJsonBytes : List Nat → Except RpcError Request) (m : Request)
    (hcodec : fromJsonBytes (toJsonBytes m) = .ok m)
    (hlen : (toJsonBytes m).length < 2 ^ 64) :
    read_from_stream fromJsonBytes (write_to_stream toJsonBytes m) = .ok m := by
  unfold write_to_stream read_from_stream
  dsimp only
  have h8 : (leBytes 8 (toJsonBytes m).length).length = 8 := length_leBytes 8 _
  have htake : (leBytes 8 (toJsonBytes m).length ++ toJsonBytes m).take 8 =
      leBytes 8 (toJsonBytes m).length := by
    conv_lhs => rw [← h8]
    exact List.take_left _ _
  have hdrop : (leBytes 8 (toJsonBytes m).length ++ toJsonBytes m).drop 8 =
      toJsonBytes m := by
    conv_lhs => rw [← h8]
    exact List.drop_left _ _
  rw [if_neg (by simp [List.length_append, h8]), htake, hdrop, leVal_leBytes,
    show (256 : Nat) ^ 8 = 2 ^ 64 from by norm_num,
    Nat.mod_eq_of_lt hlen, if_neg (lt_irrefl _), List.take_length]
  exact hcodec

theorem C9_witness :
    (fun _ : List Nat => (Except.ok (Request.rustcStarted "foo") :
        Except RpcError Request))
        ((fun _ : Request => [107]) (Request.rustcStarted "foo")) =
      Except.ok (Request.rustcStarted "foo") ∧
    ((fun _ : Request => [107]) (Request.rustcStarted "foo")).length < 2 ^ 64 ∧
    read_from_stream
        (fun _ : List Nat => (Except.ok (Request.rustcStarted "foo") :
          Except RpcError Request))
        (write_to_stream (fun _ : Request => [107]) (Request.rustcStarted "foo")) =
      Except.ok (Request.rustcStarted "foo") :=
  ⟨rfl, by decide,
    C9_rpc_roundtrip (fun _ => [107])
      (fun _ => Except.ok (Request.rustcStarted "foo")) (Request.rustcStarted "foo")
      rfl (by decide)⟩

end Cackle
